import Mathlib

/-!
Verification development for the evm-event-parser repository.

The definitions below are a shallow embedding of the TypeScript source:
  - src/utils/contracts.ts  (getEventLogs: chunk planning, chunked fetch,
    timeout re-chunking, error categorization, progress statistics)
  - src/utils/retry.ts      (isTimeoutError, withProviderRetry)
  - src/utils/events.ts     (processLog: bigint-to-string normalization)
  - src/tasks/find-roles.ts (two-phase grant/revoke role reconstruction)

Block numbers are modelled as Nat (the source uses non-negative JS numbers),
log streams as lists, JS objects holding dynamic keys as insertion-ordered
association lists, and remote queries as oracle functions returning
Except values (success or a transport error).
-/

namespace EvmParser

/-- An inclusive block range, the `{ from, to }` objects built by
`getEventLogs` in src/utils/contracts.ts. `from` is a Lean keyword, hence
the field names `fromBlock` and `toBlock`. -/
structure Chunk where
  fromBlock : Nat
  toBlock : Nat
deriving DecidableEq, Repr

/-- The chunk partition loop of `getEventLogs` (src/utils/contracts.ts,
lines 461-469):

  while (current < toBlock) \x7b
    const end = Math.min(current + maxBlockRange - 1, toBlock);
    chunks.push(\x7b from: current, to: end \x7d);
    current = end + 1;
  \x7d

The extra fuel argument bounds the number of loop iterations; whenever
`maxBlockRange >= 1` the loop advances `current` by at least one block per
iteration, so `toBlock + 1 - fromBlock` iterations always suffice and the
fuel never changes the computed value on the inputs the program uses. -/
def planChunkLoop (maxBlockRange toBlock : Nat) : Nat → Nat → List Chunk
  | 0, _ => []
  | fuel + 1, current =>
    if current < toBlock then
      ⟨current, min (current + maxBlockRange - 1) toBlock⟩ ::
        planChunkLoop maxBlockRange toBlock fuel
          (min (current + maxBlockRange - 1) toBlock + 1)
    else []

/-- The chunk list `getEventLogs` builds before querying, starting the loop
at `fromBlock` (src/utils/contracts.ts, lines 461-469). -/
def planChunks (fromBlock toBlock maxBlockRange : Nat) : List Chunk :=
  planChunkLoop maxBlockRange toBlock (toBlock + 1 - fromBlock) fromBlock

/-- The ordered list of block numbers covered by a chunk list; used to state
coverage of an inclusive range with neither gaps nor overlaps. -/
def blocksOf : List Chunk → List Nat
  | [] => []
  | c :: rest => List.range' c.fromBlock (c.toBlock + 1 - c.fromBlock) ++ blocksOf rest

/-- A transport error as inspected by the retry and categorization logic:
only the optional `code` and `message` fields of a JS error object are ever
read (src/utils/retry.ts, lines 14-26; src/utils/contracts.ts, lines
499-505). -/
structure RpcError where
  code : Option String
  message : Option String
deriving DecidableEq, Repr

/-- Character-level model of `String.prototype.toLowerCase()`; defined by
mapping over the character list so that concrete instances reduce in the
kernel. -/
def jsToLower (s : String) : String := ⟨s.data.map Char.toLower⟩

/-- Character-level model of `String.prototype.toUpperCase()`. -/
def jsToUpper (s : String) : String := ⟨s.data.map Char.toUpper⟩

/-- Whether `pat` occurs as a contiguous run at the head of `s`. -/
def headMatches : List Char → List Char → Bool
  | [], _ => true
  | _ :: _, [] => false
  | p :: ps, c :: cs => p == c && headMatches ps cs

/-- Whether `pat` occurs contiguously anywhere in `s`; the model of
`String.prototype.includes(pat)`. -/
def hasSubList (s pat : List Char) : Bool :=
  match s with
  | [] => pat.isEmpty
  | _ :: rest => headMatches pat s || hasSubList rest pat

/-- Model of `s.includes(pat)` on strings. -/
def strIncludes (s pat : String) : Bool := hasSubList s.data pat.data

/-- `isTimeoutError` from src/utils/retry.ts, lines 14-26: the error is
timeout-classified when its upper-cased code is TIMEOUT, ETIMEDOUT or
ECONNABORTED, or its lower-cased message contains a timeout-family
substring. A missing code or message reads as the empty string. -/
def isTimeoutError (e : RpcError) : Bool :=
  let message := ((e.message.map jsToLower).getD "")
  let code := ((e.code.map jsToUpper).getD "")
  code == "TIMEOUT" || code == "ETIMEDOUT" || code == "ECONNABORTED" ||
  strIncludes message "timeout" || strIncludes message "timed out" ||
  strIncludes message "connect timeout"

/-- `categorizeError` from src/utils/contracts.ts, lines 499-505: timeout
classification first, then rate-limit signals in the lower-cased message,
otherwise the generic bucket. -/
def categorizeError (e : RpcError) : String :=
  if isTimeoutError e then "timeout"
  else
    let message := ((e.message.map jsToLower).getD "")
    if strIncludes message "rate limit" || strIncludes message "429" then "rate-limit"
    else if strIncludes message "too many requests" then "rate-limit"
    else "other"

/-- The three connection endpoints a node operation can run against inside
`withProviderRetry` (src/utils/retry.ts): the primary provider, a fresh
provider on the same URL with an increased timeout, and the alternative
RPC provider. -/
inductive Endpoint where
  | primary
  | increasedTimeout
  | alternative
deriving DecidableEq, Repr

/-- Observable outcome of `withProviderRetry`: the returned or thrown value,
how many times the wrapped operation was invoked, and how many fixed
delays were awaited. -/
structure RetryOutcome (α : Type) where
  result : Except RpcError α
  attempts : Nat
  delays : Nat
deriving Repr

/-- The tail of `withProviderRetry` (src/utils/retry.ts, lines 86-109):
with no alternative RPC configured the primary error is rethrown at once;
otherwise one delay is awaited and the operation is tried once on the
alternative endpoint, whose outcome is final. -/
def retryWithAlternative {α : Type} (op : Endpoint → Except RpcError α)
    (alternativeRpcUrl : Option String) (primaryError : RpcError)
    (attempts delays : Nat) : RetryOutcome α :=
  match alternativeRpcUrl with
  | none => ⟨.error primaryError, attempts, delays⟩
  | some _ =>
    match op .alternative with
    | .ok r => ⟨.ok r, attempts + 1, delays + 1⟩
    | .error ae => ⟨.error ae, attempts + 1, delays + 1⟩

/-- `withProviderRetry` from src/utils/retry.ts, lines 43-111. The wrapped
operation is an oracle from the endpoint it is invoked on to its outcome.
`hasOriginalProvider` models the truthiness of
`(operation as any).provider`, and `providerUrl` the URL recovered from
that provider inside the timeout branch: the increased-timeout retry runs
only when the primary failure is timeout-classified, the original provider
is present, and its URL can be read (the delay is awaited before the URL
is read, hence it counts even when no retry follows). -/
def withProviderRetry {α : Type} (op : Endpoint → Except RpcError α)
    (hasOriginalProvider : Bool) (providerUrl : Option String)
    (alternativeRpcUrl : Option String) : RetryOutcome α :=
  match op .primary with
  | .ok r => ⟨.ok r, 1, 0⟩
  | .error primaryError =>
    if isTimeoutError primaryError && hasOriginalProvider then
      match providerUrl with
      | some _ =>
        match op .increasedTimeout with
        | .ok r => ⟨.ok r, 2, 1⟩
        | .error _ => retryWithAlternative op alternativeRpcUrl primaryError 2 1
      | none => retryWithAlternative op alternativeRpcUrl primaryError 1 1
    else retryWithAlternative op alternativeRpcUrl primaryError 1 0

/-- A raw log entry as far as ordering is concerned: its block number and
its log index within the block. -/
structure LogEntry where
  blockNumber : Nat
  logIndex : Nat
deriving DecidableEq, Repr

/-- The `progressStats` record of `getEventLogs` (src/utils/contracts.ts,
lines 474-479); the JS `Map` of error-category counts is modelled as an
insertion-ordered association list. -/
structure ProgressStats where
  total : Nat
  completed : Nat
  failed : Nat
  errors : List (String × Nat)
deriving DecidableEq, Repr

/-- `errors.set(type, (errors.get(type) || 0) + 1)`: bump the count stored
under a key, appending the key with count one when absent. -/
def bumpError : List (String × Nat) → String → List (String × Nat)
  | [], key => [(key, 1)]
  | (k, n) :: rest, key =>
    if k = key then (k, n + 1) :: rest else (k, n) :: bumpError rest key

/-- The count recorded under a key in the error tally (0 when absent). -/
def lookupCount : List (String × Nat) → String → Nat
  | [], _ => 0
  | (k, n) :: rest, key => if k = key then n else lookupCount rest key

/-- The success branch of `queryChunkWithRetry` (src/utils/contracts.ts,
lines 528-531): `progressStats.completed++`. -/
def recordSuccess (st : ProgressStats) : ProgressStats :=
  { st with completed := st.completed + 1 }

/-- The failure branch of `queryChunkWithRetry` (src/utils/contracts.ts,
lines 558-563): the error is categorized, `failed` and the category tally
and `completed` are incremented, and the chunk yields no logs. -/
def recordFailure (st : ProgressStats) (e : RpcError) : ProgressStats :=
  { st with failed := st.failed + 1,
            errors := bumpError st.errors (categorizeError e),
            completed := st.completed + 1 }

/-- The sub-chunk split loop inside `queryChunkWithRetry`
(src/utils/contracts.ts, lines 539-545):

  while (current <= chunk.to) \x7b
    const end = Math.min(current + reducedMaxRange - 1, chunk.to);
    subChunks.push(\x7b from: current, to: end \x7d);
    current = end + 1;
  \x7d

As with `planChunkLoop` the fuel bounds the iterations; with
`reducedMaxRange >= 1` (the code guarantees >= 10) the loop advances by at
least one block per iteration, so `chunk.to + 1 - chunk.from` iterations
always suffice. Note this loop runs while `current <= chunk.to`, unlike the
strict `<` of the top-level partition loop. -/
def subChunkLoop (reducedMaxRange chunkTo : Nat) : Nat → Nat → List Chunk
  | 0, _ => []
  | fuel + 1, current =>
    if current ≤ chunkTo then
      ⟨current, min (current + reducedMaxRange - 1) chunkTo⟩ ::
        subChunkLoop reducedMaxRange chunkTo fuel
          (min (current + reducedMaxRange - 1) chunkTo + 1)
    else []

/-- The sub-chunks a failed chunk is split into, starting the loop at
`c.fromBlock`. -/
def subChunksOf (c : Chunk) (reducedMaxRange : Nat) : List Chunk :=
  subChunkLoop reducedMaxRange c.toBlock (c.toBlock + 1 - c.fromBlock) c.fromBlock

/-- Sequential realization of a `Promise.all` over per-chunk queries
(src/utils/contracts.ts, lines 551-555 and 569-571): runs the handler on
every chunk in list order, threading the shared progress statistics and
concatenating per-chunk results in chunk order. The source runs the
promises concurrently while they mutate shared counters; the commutative
counter updates are serialized here in list order. -/
def runChunkQueries (qc : Chunk → ProgressStats → List LogEntry × ProgressStats) :
    List Chunk → ProgressStats → List LogEntry × ProgressStats
  | [], st => ([], st)
  | c :: rest, st =>
    let r1 := qc c st
    let r2 := runChunkQueries qc rest r1.2
    (r1.1 ++ r2.1, r2.2)

/-- `queryChunkWithRetry` from src/utils/contracts.ts, lines 510-567.
`query` is the oracle for one retried node query over an inclusive block
range (the `withProviderRetry`-wrapped `queryFilter` call). On a
timeout-classified failure of a chunk still larger than one tenth of the
governing limit (that tenth being at least 10), the chunk is split and
each sub-chunk is queried recursively under the reduced limit; otherwise
the failure is recorded and the chunk contributes no logs. The first
argument is recursion fuel, added so the definition is structurally
recursive and kernel-reducible: each recursion level divides the governing
limit by 10 and needs that tenth to be at least 10, so any fuel of at
least one plus the recursion depth (for instance `currentMaxRange + 1`)
leaves the zero-fuel branch unreachable. -/
def queryChunkWithRetry (query : Nat → Nat → Except RpcError (List LogEntry)) :
    Nat → Chunk → Nat → ProgressStats → List LogEntry × ProgressStats
  | 0, _, _, st => ([], st)
  | fuel + 1, chunk, currentMaxRange, st =>
    match query chunk.fromBlock chunk.toBlock with
    | .ok result => (result, recordSuccess st)
    | .error e =>
      if isTimeoutError e = true ∧
          chunk.toBlock - chunk.fromBlock + 1 > currentMaxRange / 10 ∧
          10 ≤ currentMaxRange / 10 then
        let subChunks := subChunksOf chunk (currentMaxRange / 10)
        runChunkQueries
          (fun sc acc => queryChunkWithRetry query fuel sc (currentMaxRange / 10) acc)
          subChunks { st with total := st.total + subChunks.length - 1 }
      else
        ([], recordFailure st e)

/-- `getEventLogs` from src/utils/contracts.ts, lines 400-589, for a fixed
governing block-range limit: a span that fits within the limit is fetched
with a single retried query (no statistics are tracked on that path);
otherwise the span is partitioned by the chunk loop and every chunk is
queried through `queryChunkWithRetry`, the per-chunk results being
flattened in chunk order. -/
def getEventLogs (query : Nat → Nat → Except RpcError (List LogEntry))
    (fromBlock toBlock maxBlockRange : Nat) :
    Except RpcError (List LogEntry × ProgressStats) :=
  if toBlock - fromBlock ≤ maxBlockRange then
    (query fromBlock toBlock).map (fun logs => (logs, ⟨0, 0, 0, []⟩))
  else
    let chunks := planChunks fromBlock toBlock maxBlockRange
    .ok (runChunkQueries
      (fun c acc => queryChunkWithRetry query (maxBlockRange + 1) c maxBlockRange acc)
      chunks ⟨chunks.length, 0, 0, []⟩)

/-- A ledger of logs in global `(blockNumber, logIndex)` order; a node
query over an inclusive block range returns exactly the ledger entries
whose block lies in the range, in ledger order. -/
def queryLedger (ledger : List LogEntry) (fromBlock toBlock : Nat) :
    List LogEntry :=
  ledger.filter (fun l => fromBlock ≤ l.blockNumber && l.blockNumber ≤ toBlock)

/-- The dynamic values a decoded event argument can take once returned by
the ABI decoder: strings (addresses, fixed-width hashes rendered as hex),
JS bigints (numeric values wider than a machine word), and booleans. -/
inductive JsValue where
  | strVal (s : String)
  | bigintVal (i : Int)
  | boolVal (b : Bool)
deriving DecidableEq, Repr

/-- Fuel-driven big-endian base-10 digit extraction; each step divides by
ten, so fuel `n` always suffices for input `n` and the fuel never changes
the value computed by `natDigits`. -/
def natDigitsGo : Nat → Nat → List Nat
  | 0, n => [n]
  | fuel + 1, n =>
    if n < 10 then [n]
    else natDigitsGo fuel (n / 10) ++ [n % 10]

/-- The big-endian base-10 digit list of a natural number. -/
def natDigits (n : Nat) : List Nat := natDigitsGo n n

/-- A base-10 digit as its ASCII character. -/
def digitChar (d : Nat) : Char := Char.ofNat (48 + d)

/-- Model of `BigInt.prototype.toString()`: the base-10 decimal rendering
of an integer, with a leading minus sign when negative. -/
def bigintToString (i : Int) : String :=
  if i < 0 then ⟨'-' :: (natDigits i.natAbs).map digitChar⟩
  else ⟨(natDigits i.natAbs).map digitChar⟩

/-- The numeric value denoted by a list of ASCII decimal digits, most
significant first; used to give independent meaning to the decimal
rendering. -/
def decimalVal (s : List Char) : Nat :=
  s.foldl (fun acc c => acc * 10 + (c.toNat - 48)) 0

/-- The integer denoted by a decimal string with an optional leading
minus sign. -/
def decimalIntVal (s : String) : Int :=
  match s.data with
  | [] => 0
  | c :: rest =>
    if c = '-' then -(decimalVal rest : Int) else (decimalVal (c :: rest) : Int)

/-- The per-value normalization step of `processLog`
(src/utils/events.ts, lines 40-43): a bigint becomes its decimal string,
every other value passes through unchanged. -/
def normalizeJsValue : JsValue → JsValue
  | .bigintVal i => .strVal (bigintToString i)
  | v => v

/-- First-match association lookup in a decoded-parameter object. -/
def lookupParam : List (String × JsValue) → String → Option JsValue
  | [], _ => none
  | (k, v) :: rest, key => if k = key then some v else lookupParam rest key

/-- The fields of an ethers log that `processLog` reads. `decoded` is the
named-argument object recovered from `log.args` when the log is an
`EventLog` (via `toObject()` or the positional fallback); a plain `Log`
carries `none` and decodes to the empty object. -/
structure RawLog where
  transactionHash : String
  blockNumber : Nat
  logIndex : Nat
  decoded : Option (List (String × JsValue))
deriving DecidableEq, Repr

/-- The fields of the parent transaction that `processLog` reads
(`tx.from`). -/
structure TxInfo where
  txFrom : String
deriving DecidableEq, Repr

/-- The fields of the parent block that `processLog` reads
(`block.timestamp`, in seconds). -/
structure BlockInfo where
  timestamp : Nat
deriving DecidableEq, Repr

/-- The `EventData` record built by `processLog` (src/utils/events.ts,
lines 3-9). The source formats `block.timestamp * 1000` as an ISO-8601
date string; the millisecond value itself is kept here, date formatting
being presentation only. -/
structure EventData where
  transactionHash : String
  eventName : String
  timestampMs : Nat
  sender : String
  eventParameters : List (String × JsValue)
deriving DecidableEq, Repr

/-- `processLog` from src/utils/events.ts, lines 11-52: fails when the
parent transaction or block could not be fetched, otherwise builds the
event record, normalizing every bigint argument value to its decimal
string. -/
def processLog (log : RawLog) (tx : Option TxInfo) (block : Option BlockInfo)
    (eventName : String) : Except String EventData :=
  match tx, block with
  | some tx, some block =>
    let decodedArgs := log.decoded.getD []
    let processedArgs := decodedArgs.map (fun kv => (kv.1, normalizeJsValue kv.2))
    .ok { transactionHash := log.transactionHash
          eventName := eventName
          timestampMs := block.timestamp * 1000
          sender := tx.txFrom
          eventParameters := processedArgs }
  | _, _ =>
    .error ("Failed to fetch transaction or block data for tx " ++ log.transactionHash)

/-- JS truthiness of a decoded value: the empty string, the bigint 0 and
`false` are falsy. -/
def jsTruthy : JsValue → Bool
  | .strVal s => !(s == "")
  | .bigintVal i => !(i == 0)
  | .boolVal b => b

/-- JS `a || b` on possibly-undefined values (`none` models `undefined`,
which is falsy): the left value when truthy, otherwise the right one. -/
def jsOr (a b : Option JsValue) : Option JsValue :=
  match a with
  | some v => if jsTruthy v then some v else b
  | none => b

/-- The string a value coerces to when used as a JS object property key.
Post-`processLog` role and account parameters are strings, so only the
string case is exercised. -/
def jsKeyString : JsValue → String
  | .strVal s => s
  | .bigintVal i => bigintToString i
  | .boolVal b => if b then "true" else "false"

/-- The shared header of the grant and revoke loops of the find-roles task
(src/tasks/find-roles.ts, lines 173-186 and 196-209): the role identifier
is `event.eventParameters.role || event.eventParameters.roleId`, the
account is `event.eventParameters.account`, and the event is skipped (with
a warning) unless both are truthy. The resulting object keys are
returned. -/
def extractRoleAccount (e : EventData) : Option (String × String) :=
  match jsOr (lookupParam e.eventParameters "role")
          (lookupParam e.eventParameters "roleId"),
        lookupParam e.eventParameters "account" with
  | some r, some a =>
    if jsTruthy r && jsTruthy a then some (jsKeyString r, jsKeyString a)
    else none
  | _, _ => none

/-- The `roleHolders` map of the find-roles task: role identifier to
(account to currently-holds flag), both levels insertion-ordered as JS
object string keys are. -/
abbrev RoleHolders := List (String × List (String × Bool))

/-- Set the flag stored under an account, appending the account when
absent. -/
def setFlag : List (String × Bool) → String → Bool → List (String × Bool)
  | [], account, b => [(account, b)]
  | (a, f) :: rest, account, b =>
    if a = account then (a, b) :: rest else (a, f) :: setFlag rest account b

/-- `roleHolders[role][account] = b`, creating the inner object when the
role is absent. -/
def setPair : RoleHolders → String → String → Bool → RoleHolders
  | [], role, account, b => [(role, [(account, b)])]
  | (r, m) :: rest, role, account, b =>
    if r = role then (r, setFlag m account b) :: rest
    else (r, m) :: setPair rest role account b

/-- The flag stored under an account, `none` when absent. -/
def lookupFlag : List (String × Bool) → String → Option Bool
  | [], _ => none
  | (a, f) :: rest, account => if a = account then some f else lookupFlag rest account

/-- The inner account map stored under a role, `none` when absent. -/
def lookupRole : RoleHolders → String → Option (List (String × Bool))
  | [], _ => none
  | (r, m) :: rest, role => if r = role then some m else lookupRole rest role

/-- The flag stored under a (role, account) pair, `none` when either level
is absent. -/
def lookupPair (st : RoleHolders) (role account : String) : Option Bool :=
  match lookupRole st role with
  | some m => lookupFlag m account
  | none => none

/-- One iteration of the grant loop (src/tasks/find-roles.ts, lines
173-193): `roleHolders[roleIdentifier][account] = true`, creating entries
as needed; events without a truthy role identifier and account are
skipped. -/
def processGrantEvent (st : RoleHolders) (e : EventData) : RoleHolders :=
  match extractRoleAccount e with
  | some (role, account) => setPair st role account true
  | none => st

/-- One iteration of the revoke loop (src/tasks/find-roles.ts, lines
196-217): the flag is set to false only when
`roleHolders[roleIdentifier] && roleHolders[roleIdentifier][account]` is
truthy, that is when the pair exists with flag true; otherwise the state
is untouched. -/
def processRevokeEvent (st : RoleHolders) (e : EventData) : RoleHolders :=
  match extractRoleAccount e with
  | some (role, account) =>
    if lookupPair st role account = some true then setPair st role account false
    else st
  | none => st

/-- The two-phase reconstruction of the find-roles task: the grant loop
runs over ALL granted events first, then the revoke loop runs over ALL
revoked events (src/tasks/find-roles.ts, lines 169-217). -/
def reconstructRoles (grantedEvents revokedEvents : List EventData) : RoleHolders :=
  List.foldl processRevokeEvent (List.foldl processGrantEvent [] grantedEvents)
    revokedEvents

/-- The active-holder filter of the output loop (src/tasks/find-roles.ts,
lines 226-229): the accounts whose final flag is true, in insertion
order. -/
def holdersOf (m : List (String × Bool)) : List String :=
  (m.filter (fun p => p.2)).map (fun p => p.1)

/-- `roleName || roleId`: the output key for a role (src/tasks/find-roles.ts,
lines 231-232). -/
def roleKey (roleNameOf : String → Option String) (roleId : String) : String :=
  match roleNameOf roleId with
  | some n => if n == "" then roleId else n
  | none => roleId

/-- The `roleMap` built from the final `roleHolders` state
(src/tasks/find-roles.ts, lines 220-234). `roleNameOf` abstracts
`tryIdentifyRoleName`, whose lookups go through the known-role table and
the live contract object. -/
def roleMapOf (st : RoleHolders) (roleNameOf : String → Option String) :
    List (String × List String) :=
  st.map (fun p => (roleKey roleNameOf p.1, holdersOf p.2))

/-- A grant or revoke event as the specification orders it: its position
key `(blockNumber, logIndex)` together with the role and account. -/
structure SpecEvent where
  blockNumber : Nat
  logIndex : Nat
  isGrant : Bool
  role : String
  account : String
deriving DecidableEq, Repr

/-- Ascending comparison on the `(blockNumber, logIndex)` ordering key. -/
def specEventLe (a b : SpecEvent) : Bool :=
  a.blockNumber < b.blockNumber ||
  (a.blockNumber == b.blockNumber && a.logIndex ≤ b.logIndex)

/-- Insertion into a `specEventLe`-sorted list. -/
def insertSorted (e : SpecEvent) : List SpecEvent → List SpecEvent
  | [] => [e]
  | x :: xs => if specEventLe e x then e :: x :: xs else x :: insertSorted e xs

/-- Stable insertion sort by `(blockNumber, logIndex)`. -/
def sortSpecEvents (l : List SpecEvent) : List SpecEvent :=
  List.foldr insertSorted [] l

/-- Modelled from the spec: the chronologically merged fold of section 4.5,
which is absent from the source (the find-roles task processes the two
batches separately). The grant and revoke events are merged into one
sequence sorted ascending by `(blockNumber, logIndex)` and folded left to
right; a grant sets the currently-holds flag of its (role, account) pair
true, a revoke sets it false unconditionally. -/
def mergedReconstruct (grantEvents revokeEvents : List SpecEvent) : RoleHolders :=
  List.foldl
    (fun st e => setPair st e.role e.account e.isGrant)
    [] (sortSpecEvents (grantEvents ++ revokeEvents))

/-- Grant(role=R, acct=A) event record, as `processLog` returns it for a
RoleGranted log in block 1. -/
def grantBlock1 : EventData :=
  ⟨"0xg1", "RoleGranted", 1000, "0xsender",
    [("role", .strVal "R"), ("account", .strVal "A"), ("sender", .strVal "0xsender")]⟩

/-- Grant(role=R, acct=A) event record for the RoleGranted log in
block 10. -/
def grantBlock10 : EventData :=
  ⟨"0xg10", "RoleGranted", 10000, "0xsender",
    [("role", .strVal "R"), ("account", .strVal "A"), ("sender", .strVal "0xsender")]⟩

/-- Revoke(role=R, acct=A) event record for the RoleRevoked log in
block 5. -/
def revokeBlock5 : EventData :=
  ⟨"0xr5", "RoleRevoked", 5000, "0xsender",
    [("role", .strVal "R"), ("account", .strVal "A"), ("sender", .strVal "0xsender")]⟩

/-- The same three events carrying their ordering keys, as the
specification describes them. -/
def specGrant1 : SpecEvent := ⟨1, 0, true, "R", "A"⟩

/-- Revoke(role=R, acct=A, block=5) with its ordering key. -/
def specRevoke5 : SpecEvent := ⟨5, 0, false, "R", "A"⟩

/-- Grant(role=R, acct=A, block=10) with its ordering key. -/
def specGrant10 : SpecEvent := ⟨10, 0, true, "R", "A"⟩

/-- A ledger holding one log, in block 20 at log index 0. -/
def ledgerBlock20 : List LogEntry := [⟨20, 0⟩]

/-- A perfectly reliable node backed by `ledgerBlock20`: every range query
succeeds and returns the in-range ledger entries. -/
def queryBlock20 (fromBlock toBlock : Nat) : Except RpcError (List LogEntry) :=
  .ok (queryLedger ledgerBlock20 fromBlock toBlock)

end EvmParser

namespace EvmParser

/-- Claim C1: for Grant(R, A, block 1), Revoke(R, A, block 5),
Grant(R, A, block 10) the reconstructed state must report A as a holder of
R, which requires folding the single chronologically merged stream. The
find-roles task instead processes all grants before all revokes: on this
input the code leaves the (R, A) flag false, so A is dropped from the
reported holders, while the chronologically merged fold mandated by the
specification ends with the flag true. -/
theorem findRoles_two_phase_drops_regranted_holder :
    reconstructRoles [grantBlock1, grantBlock10] [revokeBlock5]
      = [("R", [("A", false)])] ∧
    roleMapOf (reconstructRoles [grantBlock1, grantBlock10] [revokeBlock5])
      (fun _ => none) = [("R", [])] ∧
    mergedReconstruct [specGrant1, specGrant10] [specRevoke5]
      = [("R", [("A", true)])] ∧
    roleMapOf (mergedReconstruct [specGrant1, specGrant10] [specRevoke5])
      (fun _ => none) = [("R", ["A"])] := by
  refine ⟨?_, ?_, ?_, ?_⟩ <;> rfl

/-- Claim C2: the chunk partition is claimed to cover the inclusive span
exactly with ceil((to - from + 1) / maxChunkSize) chunks. The partition
loop runs only while `current < toBlock`, so whenever the span width
`to - from` is an exact multiple of the limit the final block is covered
by no chunk: for span [0, 20] with limit 10 the code builds the two chunks
[0, 9] and [10, 19], block 20 is missing, and the chunk count is 2 instead
of ceil(21 / 10) = 3. -/
theorem planChunks_drops_final_block :
    0 ≤ 20 ∧ 20 - 0 > 10 ∧
    planChunks 0 20 10 = [⟨0, 9⟩, ⟨10, 19⟩] ∧
    (planChunks 0 20 10).length = 2 ∧ (21 + 10 - 1) / 10 = 3 ∧
    blocksOf (planChunks 0 20 10) ≠ List.range' 0 21 ∧
    20 ∉ blocksOf (planChunks 0 20 10) := by
  refine ⟨by omega, by omega, rfl, rfl, rfl, by decide, by decide⟩

/-- Claim C9: partitioning the span [100, 5000] under provider limit 1000
produces exactly the five chunks [100,1099], [1100,2099], [2100,3099],
[3100,4099], [4100,5000], in that order (and that span does force
chunking: 5000 - 100 > 1000). -/
theorem planChunks_span_100_5000_limit_1000 :
    5000 - 100 > 1000 ∧
    planChunks 100 5000 1000
      = [⟨100, 1099⟩, ⟨1100, 2099⟩, ⟨2100, 3099⟩, ⟨3100, 4099⟩, ⟨4100, 5000⟩] := by
  exact ⟨by omega, rfl⟩

/-- Claim C3: chunked fetching is claimed to return exactly the ordered
logs of an un-chunked fetch of the same span when no query fails. Because
the partition loop drops the final block when the span width is a multiple
of the limit, a ledger with a single log in block 20 refutes this over the
span [0, 20]: with limit 10 the chunked fetch returns no logs, while the
un-chunked single query (limit 20) returns the block-20 log. -/
theorem getEventLogs_chunked_differs_from_single :
    getEventLogs queryBlock20 0 20 10 = .ok ([], ⟨2, 2, 0, []⟩) ∧
    getEventLogs queryBlock20 0 20 20 = .ok ([⟨20, 0⟩], ⟨0, 0, 0, []⟩) ∧
    queryLedger ledgerBlock20 0 20 = [⟨20, 0⟩] := by
  refine ⟨?_, ?_, ?_⟩ <;> rfl

/-- Past the end of the chunk the split loop produces nothing. -/
theorem subChunkLoop_stop (s t : Nat) (fuel current : Nat) (h : t < current) :
    subChunkLoop s t fuel current = [] := by
  cases fuel with
  | zero => rfl
  | succ n =>
    unfold subChunkLoop
    rw [if_neg (by omega)]

/-- With at least one block of progress per iteration, the split loop
never returns an empty list while the cursor is inside the chunk. -/
theorem subChunkLoop_ne_nil (s t : Nat) (fuel current : Nat) (h1 : current ≤ t)
    (h2 : 1 ≤ fuel) : subChunkLoop s t fuel current ≠ [] := by
  cases fuel with
  | zero => omega
  | succ n =>
    unfold subChunkLoop
    rw [if_pos h1]
    simp

/-- Coverage of the split loop: given a positive size and enough fuel, the
blocks of the produced sub-chunks are exactly the inclusive range from the
cursor to the chunk end, in order — contiguous, gapless and without
overlap. -/
theorem subChunkLoop_cover (s t : Nat) (hs : 1 ≤ s) :
    ∀ fuel current, current ≤ t → t + 1 - current ≤ fuel →
      blocksOf (subChunkLoop s t fuel current) = List.range' current (t + 1 - current) := by
  intro fuel
  induction fuel with
  | zero => intro current h1 h2; omega
  | succ n ih =>
    intro current h1 h2
    unfold subChunkLoop
    rw [if_pos h1]
    rcases Nat.lt_or_ge (current + s - 1) t with hlt | hge
    · rw [Nat.min_eq_left (Nat.le_of_lt hlt)]
      unfold blocksOf
      rw [ih (current + s - 1 + 1) (by omega) (by omega)]
      have e1 : current + s - 1 + 1 - current = s := by omega
      have e2 : current + s - 1 + 1 = current + s := by omega
      rw [e1, e2]
      have happ := List.range'_append current s (t + 1 - (current + s)) 1
      rw [Nat.one_mul] at happ
      rw [happ]
      congr 1
      omega
    · rw [Nat.min_eq_right hge]
      unfold blocksOf
      rw [subChunkLoop_stop s t n (t + 1) (by omega)]
      unfold blocksOf
      simp

/-- Every sub-chunk produced by the split loop spans at most `s` blocks. -/
theorem subChunkLoop_size_le (s t : Nat) (hs : 1 ≤ s) :
    ∀ fuel current c, c ∈ subChunkLoop s t fuel current →
      c.toBlock + 1 - c.fromBlock ≤ s := by
  intro fuel
  induction fuel with
  | zero => intro current c hc; simp [subChunkLoop] at hc
  | succ n ih =>
    intro current c hc
    unfold subChunkLoop at hc
    by_cases h1 : current ≤ t
    · rw [if_pos h1] at hc
      rcases List.mem_cons.mp hc with rfl | hc'
      · simp only []
        omega
      · exact ih _ c hc'
    · rw [if_neg h1] at hc
      simp at hc

/-- Every sub-chunk except possibly the last spans exactly `s` blocks. -/
theorem subChunkLoop_dropLast_size (s t : Nat) (hs : 1 ≤ s) :
    ∀ fuel current, current ≤ t → t + 1 - current ≤ fuel →
      ∀ c ∈ (subChunkLoop s t fuel current).dropLast,
        c.toBlock + 1 - c.fromBlock = s := by
  intro fuel
  induction fuel with
  | zero => intro current h1 h2; omega
  | succ n ih =>
    intro current h1 h2
    unfold subChunkLoop
    rw [if_pos h1]
    rcases Nat.lt_or_ge (current + s - 1) t with hlt | hge
    · rw [Nat.min_eq_left (Nat.le_of_lt hlt)]
      rw [List.dropLast_cons_of_ne_nil
        (subChunkLoop_ne_nil s t n (current + s - 1 + 1) (by omega) (by omega))]
      intro c hc
      rcases List.mem_cons.mp hc with rfl | hc'
      · simp only []
        omega
      · exact ih _ (by omega) (by omega) c hc'
    · rw [Nat.min_eq_right hge]
      rw [subChunkLoop_stop s t n (t + 1) (by omega)]
      simp

/-- Claim C4: when a chunk query fails with a timeout-classified error,
the chunk spans more than `floor(currentLimit / 10)` blocks and that tenth
is at least 10, the failed chunk is split into sub-chunks of size
`floor(currentLimit / 10)` (the last possibly shorter) covering its span
exactly, each retried recursively under the reduced limit; when the
condition fails no split occurs and the chunk degrades to an empty result.
In particular a 1000-block chunk failing under governing limit 1000 splits
into exactly 10 sub-chunks of 100 blocks each. -/
theorem queryChunkWithRetry_timeout_resplit
    (query : Nat → Nat → Except RpcError (List LogEntry))
    (fuel : Nat) (chunk : Chunk) (currentMaxRange : Nat) (st : ProgressStats)
    (e : RpcError) (hft : chunk.fromBlock ≤ chunk.toBlock)
    (hq : query chunk.fromBlock chunk.toBlock = .error e) :
    (isTimeoutError e = true ∧
        chunk.toBlock - chunk.fromBlock + 1 > currentMaxRange / 10 ∧
        10 ≤ currentMaxRange / 10 →
      queryChunkWithRetry query (fuel + 1) chunk currentMaxRange st
        = runChunkQueries
            (fun sc acc =>
              queryChunkWithRetry query fuel sc (currentMaxRange / 10) acc)
            (subChunksOf chunk (currentMaxRange / 10))
            { st with
                total :=
                  st.total + (subChunksOf chunk (currentMaxRange / 10)).length - 1 } ∧
      blocksOf (subChunksOf chunk (currentMaxRange / 10))
        = List.range' chunk.fromBlock (chunk.toBlock + 1 - chunk.fromBlock) ∧
      (∀ c ∈ subChunksOf chunk (currentMaxRange / 10),
        c.toBlock + 1 - c.fromBlock ≤ currentMaxRange / 10) ∧
      (∀ c ∈ (subChunksOf chunk (currentMaxRange / 10)).dropLast,
        c.toBlock + 1 - c.fromBlock = currentMaxRange / 10)) ∧
    (¬(isTimeoutError e = true ∧
        chunk.toBlock - chunk.fromBlock + 1 > currentMaxRange / 10 ∧
        10 ≤ currentMaxRange / 10) →
      queryChunkWithRetry query (fuel + 1) chunk currentMaxRange st
        = ([], recordFailure st e)) ∧
    subChunksOf ⟨1, 1000⟩ (1000 / 10)
      = [⟨1, 100⟩, ⟨101, 200⟩, ⟨201, 300⟩, ⟨301, 400⟩, ⟨401, 500⟩,
         ⟨501, 600⟩, ⟨601, 700⟩, ⟨701, 800⟩, ⟨801, 900⟩, ⟨901, 1000⟩] := by
  refine ⟨fun h => ⟨?_, ?_, ?_, ?_⟩, fun h => ?_, rfl⟩
  · conv_lhs => rw [queryChunkWithRetry]
    simp only [hq]
    rw [if_pos h]
  · exact subChunkLoop_cover (currentMaxRange / 10) chunk.toBlock (by omega)
      (chunk.toBlock + 1 - chunk.fromBlock) chunk.fromBlock hft (Nat.le_refl _)
  · intro c hc
    exact subChunkLoop_size_le (currentMaxRange / 10) chunk.toBlock (by omega)
      (chunk.toBlock + 1 - chunk.fromBlock) chunk.fromBlock c hc
  · exact subChunkLoop_dropLast_size (currentMaxRange / 10) chunk.toBlock (by omega)
      (chunk.toBlock + 1 - chunk.fromBlock) chunk.fromBlock hft (Nat.le_refl _)
  · conv_lhs => rw [queryChunkWithRetry]
    simp only [hq]
    rw [if_neg h]

/-- Witness for C4 at a concrete input: a 1000-block chunk whose query
always times out under governing limit 1000 is handed to the recursive
sub-chunk queries over its exact 10-sub-chunk split. -/
theorem queryChunkWithRetry_timeout_resplit_witness :
    queryChunkWithRetry (fun _ _ => .error ⟨none, some "query timeout"⟩) 2
        ⟨1, 1000⟩ 1000 ⟨10, 0, 0, []⟩
      = runChunkQueries
          (fun sc acc =>
            queryChunkWithRetry (fun _ _ => .error ⟨none, some "query timeout"⟩) 1
              sc (1000 / 10) acc)
          (subChunksOf ⟨1, 1000⟩ (1000 / 10))
          ⟨10 + (subChunksOf ⟨1, 1000⟩ (1000 / 10)).length - 1, 0, 0, []⟩ ∧
    blocksOf (subChunksOf ⟨1, 1000⟩ (1000 / 10)) = List.range' 1 1000 :=
  ⟨((queryChunkWithRetry_timeout_resplit
      (fun _ _ => .error ⟨none, some "query timeout"⟩) 1 ⟨1, 1000⟩ 1000
      ⟨10, 0, 0, []⟩ ⟨none, some "query timeout"⟩ (by decide) rfl).1
      (by refine ⟨by decide, by decide, by decide⟩)).1,
   ((queryChunkWithRetry_timeout_resplit
      (fun _ _ => .error ⟨none, some "query timeout"⟩) 1 ⟨1, 1000⟩ 1000
      ⟨10, 0, 0, []⟩ ⟨none, some "query timeout"⟩ (by decide) rfl).1
      (by refine ⟨by decide, by decide, by decide⟩)).2.1⟩

/-- A chunk whose query fails without meeting the re-split condition
yields no logs and a failure-updated statistics record. -/
theorem queryChunkWithRetry_fail
    (query : Nat → Nat → Except RpcError (List LogEntry))
    (fuel : Nat) (c : Chunk) (currentMaxRange : Nat) (st : ProgressStats)
    (e : RpcError) (hq : query c.fromBlock c.toBlock = .error e)
    (hcond : ¬(isTimeoutError e = true ∧
        c.toBlock - c.fromBlock + 1 > currentMaxRange / 10 ∧
        10 ≤ currentMaxRange / 10)) :
    queryChunkWithRetry query (fuel + 1) c currentMaxRange st
      = ([], recordFailure st e) := by
  conv_lhs => rw [queryChunkWithRetry]
  simp only [hq]
  rw [if_neg hcond]

/-- Chunk processing splits over list concatenation: the statistics thread
through and the logs concatenate. -/
theorem runChunkQueries_append
    (qc : Chunk → ProgressStats → List LogEntry × ProgressStats) :
    ∀ l1 l2 st, runChunkQueries qc (l1 ++ l2) st
      = ((runChunkQueries qc l1 st).1
           ++ (runChunkQueries qc l2 (runChunkQueries qc l1 st).2).1,
         (runChunkQueries qc l2 (runChunkQueries qc l1 st).2).2) := by
  intro l1
  induction l1 with
  | nil => intro l2 st; simp [runChunkQueries]
  | cons c rest ih => intro l2 st; simp [runChunkQueries, ih, List.append_assoc]

/-- Bumping a category in the tally increments exactly that category. -/
theorem lookupCount_bumpError (l : List (String × Nat)) (key : String) :
    lookupCount (bumpError l key) key = lookupCount l key + 1 := by
  induction l with
  | nil => simp [bumpError, lookupCount]
  | cons p rest ih =>
    by_cases h : p.1 = key
    · simp [bumpError, lookupCount, h]
    · simp [bumpError, lookupCount, h, ih]

/-- Claim C5: a chunk whose query fails with a non-timeout error, or with
any error once the re-split condition no longer holds, contributes an
empty log list instead of aborting the fetch; the failed counter, the
completed counter and the per-category tally are incremented for it, and
the surrounding fetch still merges the results of the chunks before and
after it in order. -/
theorem queryChunk_failure_degrades
    (query : Nat → Nat → Except RpcError (List LogEntry))
    (fuel : Nat) (c : Chunk) (currentMaxRange : Nat) (st : ProgressStats)
    (e : RpcError) (pre post : List Chunk)
    (hq : query c.fromBlock c.toBlock = .error e)
    (hcond : ¬(isTimeoutError e = true ∧
        c.toBlock - c.fromBlock + 1 > currentMaxRange / 10 ∧
        10 ≤ currentMaxRange / 10)) :
    queryChunkWithRetry query (fuel + 1) c currentMaxRange st
      = ([], recordFailure st e) ∧
    (recordFailure st e).failed = st.failed + 1 ∧
    (recordFailure st e).completed = st.completed + 1 ∧
    lookupCount (recordFailure st e).errors (categorizeError e)
      = lookupCount st.errors (categorizeError e) + 1 ∧
    (runChunkQueries
        (fun ck acc => queryChunkWithRetry query (fuel + 1) ck currentMaxRange acc)
        (pre ++ c :: post) st).1
      = (runChunkQueries
          (fun ck acc => queryChunkWithRetry query (fuel + 1) ck currentMaxRange acc)
          pre st).1
        ++ (runChunkQueries
            (fun ck acc => queryChunkWithRetry query (fuel + 1) ck currentMaxRange acc)
            post
            (recordFailure
              (runChunkQueries
                (fun ck acc => queryChunkWithRetry query (fuel + 1) ck currentMaxRange acc)
                pre st).2
              e)).1 := by
  refine ⟨queryChunkWithRetry_fail query fuel c currentMaxRange st e hq hcond,
    rfl, rfl, ?_, ?_⟩
  · exact lookupCount_bumpError st.errors (categorizeError e)
  · rw [runChunkQueries_append]
    simp only [runChunkQueries]
    rw [queryChunkWithRetry_fail query fuel c currentMaxRange _ e hq hcond]
    simp

/-- Witness for C5 at a concrete input: a rate-limited chunk in the middle
of a three-chunk fetch degrades to an empty contribution while its
neighbors still deliver their logs. -/
theorem queryChunk_failure_degrades_witness :
    queryChunkWithRetry
        (fun f _ => if f == 20 then .error ⟨none, some "429 rate limit"⟩
                    else .ok [⟨f, 0⟩])
        3 ⟨20, 29⟩ 1000 ⟨3, 0, 0, []⟩
      = ([], recordFailure ⟨3, 0, 0, []⟩ ⟨none, some "429 rate limit"⟩) ∧
    (runChunkQueries
        (fun ck acc =>
          queryChunkWithRetry
            (fun f _ => if f == 20 then .error ⟨none, some "429 rate limit"⟩
                        else .ok [⟨f, 0⟩])
            3 ck 1000 acc)
        ([⟨0, 9⟩] ++ ⟨20, 29⟩ :: [⟨30, 39⟩]) ⟨3, 0, 0, []⟩).1
      = (runChunkQueries
          (fun ck acc =>
            queryChunkWithRetry
              (fun f _ => if f == 20 then .error ⟨none, some "429 rate limit"⟩
                          else .ok [⟨f, 0⟩])
              3 ck 1000 acc)
          [⟨0, 9⟩] ⟨3, 0, 0, []⟩).1
        ++ (runChunkQueries
            (fun ck acc =>
              queryChunkWithRetry
                (fun f _ => if f == 20 then .error ⟨none, some "429 rate limit"⟩
                            else .ok [⟨f, 0⟩])
                3 ck 1000 acc)
            [⟨30, 39⟩]
            (recordFailure
              (runChunkQueries
                (fun ck acc =>
                  queryChunkWithRetry
                    (fun f _ => if f == 20 then .error ⟨none, some "429 rate limit"⟩
                                else .ok [⟨f, 0⟩])
                    3 ck 1000 acc)
                [⟨0, 9⟩] ⟨3, 0, 0, []⟩).2
              ⟨none, some "429 rate limit"⟩)).1 :=
  ⟨(queryChunk_failure_degrades
      (fun f _ => if f == 20 then .error ⟨none, some "429 rate limit"⟩
                  else .ok [⟨f, 0⟩])
      2 ⟨20, 29⟩ 1000 ⟨3, 0, 0, []⟩ ⟨none, some "429 rate limit"⟩
      [⟨0, 9⟩] [⟨30, 39⟩] rfl (by decide)).1,
   (queryChunk_failure_degrades
      (fun f _ => if f == 20 then .error ⟨none, some "429 rate limit"⟩
                  else .ok [⟨f, 0⟩])
      2 ⟨20, 29⟩ 1000 ⟨3, 0, 0, []⟩ ⟨none, some "429 rate limit"⟩
      [⟨0, 9⟩] [⟨30, 39⟩] rfl (by decide)).2.2.2.2⟩

/-- Claim C7: when the first attempt of a node operation fails with an
error that is not timeout-classified and no alternative RPC endpoint is
configured, `withProviderRetry` invokes the operation exactly once, awaits
no delay, and rethrows the original primary error. -/
theorem withProviderRetry_no_fallback_single_attempt {α : Type}
    (op : Endpoint → Except RpcError α) (hasOriginalProvider : Bool)
    (providerUrl : Option String) (e : RpcError)
    (hp : op .primary = .error e) (ht : isTimeoutError e = false) :
    withProviderRetry op hasOriginalProvider providerUrl none
      = ⟨.error e, 1, 0⟩ := by
  unfold withProviderRetry
  simp only [hp, ht]
  simp [retryWithAlternative]

/-- Witness for C7 at a concrete input: a generic server error on the
primary endpoint with no fallback configured propagates unchanged after a
single attempt. -/
theorem withProviderRetry_no_fallback_witness :
    withProviderRetry
        (fun _ => (.error ⟨some "SERVER_ERROR", some "bad response"⟩ : Except RpcError Nat))
        true (some "https://rpc.example") none
      = ⟨.error ⟨some "SERVER_ERROR", some "bad response"⟩, 1, 0⟩ :=
  withProviderRetry_no_fallback_single_attempt
    (fun _ => (.error ⟨some "SERVER_ERROR", some "bad response"⟩ : Except RpcError Nat))
    true (some "https://rpc.example") ⟨some "SERVER_ERROR", some "bad response"⟩
    rfl (by decide)

/-- An account reported as an active holder carries flag true in the
account map. -/
theorem mem_of_holdersOf (m : List (String × Bool)) (a : String)
    (ha : a ∈ holdersOf m) : (a, true) ∈ m := by
  rcases List.mem_map.mp ha with ⟨p, hp, hpa⟩
  rcases List.mem_filter.mp hp with ⟨hm, hb⟩
  obtain ⟨p1, p2⟩ := p
  simp only at hpa hb
  subst hpa
  subst hb
  exact hm

/-- With distinct account keys, an account whose final flag is false does
not appear among the reported holders. -/
theorem not_mem_holdersOf (m : List (String × Bool)) (a : String) :
    (m.map Prod.fst).Nodup → lookupFlag m a = some false → a ∉ holdersOf m := by
  induction m with
  | nil => intro _ hf; simp [lookupFlag] at hf
  | cons p rest ih =>
    intro hnd hf ha
    obtain ⟨a1, f1⟩ := p
    have hnd1 : (a1 :: rest.map Prod.fst).Nodup := by simpa using hnd
    rcases List.nodup_cons.mp hnd1 with ⟨hnotin, hnd2⟩
    by_cases h1 : a1 = a
    · have hf1 : f1 = false := by simpa [lookupFlag, h1] using hf
      subst hf1
      have ha2 : a ∈ holdersOf rest := by
        simpa [holdersOf, List.filter_cons] using ha
      have hmem : (a, true) ∈ rest := mem_of_holdersOf rest a ha2
      exact hnotin (h1 ▸ List.mem_map.mpr ⟨(a, true), hmem, rfl⟩)
    · have hf2 : lookupFlag rest a = some false := by
        simpa [lookupFlag, h1] using hf
      cases f1 with
      | false =>
        have ha2 : a ∈ holdersOf rest := by
          simpa [holdersOf, List.filter_cons] using ha
        exact ih hnd2 hf2 ha2
      | true =>
        have ha2 : a ∈ a1 :: holdersOf rest := by
          simpa [holdersOf, List.filter_cons] using ha
        rcases List.mem_cons.mp ha2 with heq | h2
        · exact h1 heq.symm
        · exact ih hnd2 hf2 h2

/-- A revoke whose extracted pair is not currently held leaves the state
untouched. -/
theorem processRevokeEvent_noop (st : RoleHolders) (e : EventData)
    (h : ∀ p : String × String, extractRoleAccount e = some p →
      lookupPair st p.1 p.2 ≠ some true) :
    processRevokeEvent st e = st := by
  unfold processRevokeEvent
  cases hext : extractRoleAccount e with
  | none => rfl
  | some p =>
    obtain ⟨prole, pacct⟩ := p
    show (if lookupPair st prole pacct = some true
          then setPair st prole pacct false else st) = st
    rw [if_neg (h (prole, pacct) hext)]

/-- Claim C6: a (role, account) pair whose final currently-holds flag is
false is omitted from the holders list the task publishes for that role,
while every stored role still appears in the public output with its
filtered holder list; and a revoke event whose pair is not currently held
(in particular one never granted) leaves the state unchanged and raises no
error. -/
theorem findRoles_filters_false_and_revoke_noop
    (st : RoleHolders) (roleNameOf : String → Option String) (r : String)
    (m : List (String × Bool)) (a : String) (e : EventData)
    (hmem : (r, m) ∈ st) (hnd : (m.map Prod.fst).Nodup) :
    (roleKey roleNameOf r, holdersOf m) ∈ roleMapOf st roleNameOf ∧
    (lookupFlag m a = some false → a ∉ holdersOf m) ∧
    ((∀ p : String × String, extractRoleAccount e = some p →
        lookupPair st p.1 p.2 ≠ some true) →
      processRevokeEvent st e = st) := by
  refine ⟨?_, fun hf => not_mem_holdersOf m a hnd hf, fun h => processRevokeEvent_noop st e h⟩
  exact List.mem_map.mpr ⟨(r, m), hmem, rfl⟩

/-- Witness for C6 at a concrete input: in a state holding role R with A
revoked and B active, the output lists only B, A is filtered out, and the
revoke of the pair (R, A) — whose flag is already false — is a no-op. -/
theorem findRoles_filters_false_and_revoke_noop_witness :
    ("R", ["B"]) ∈ roleMapOf [("R", [("A", false), ("B", true)])] (fun _ => none) ∧
    "A" ∉ holdersOf [("A", false), ("B", true)] ∧
    processRevokeEvent [("R", [("A", false), ("B", true)])] revokeBlock5
      = [("R", [("A", false), ("B", true)])] := by
  have H := findRoles_filters_false_and_revoke_noop
    [("R", [("A", false), ("B", true)])] (fun _ => none) "R"
    [("A", false), ("B", true)] "A" revokeBlock5
    (by decide) (by decide)
  refine ⟨H.1, H.2.1 rfl, H.2.2 ?_⟩
  intro p hp
  have he : extractRoleAccount revokeBlock5 = some ("R", "A") := rfl
  rw [he] at hp
  rw [← Option.some.inj hp]
  decide

/-- Setting one account flag touches no other account key: a pair found in
the updated map either is the written account or was already present. -/
theorem setFlag_mem (m : List (String × Bool)) (account : String) (b : Bool) :
    ∀ x bx, (x, bx) ∈ setFlag m account b → x = account ∨ ∃ b2, (x, b2) ∈ m := by
  induction m with
  | nil =>
    intro x bx h
    simp [setFlag] at h
    exact Or.inl h.1
  | cons p rest ih =>
    intro x bx h
    obtain ⟨a1, f1⟩ := p
    simp only [setFlag] at h
    by_cases h1 : a1 = account
    · rw [if_pos h1] at h
      rcases List.mem_cons.mp h with heq | hmem
      · left
        rw [(Prod.mk.injEq _ _ _ _).mp heq |>.1]
        exact h1
      · right
        exact ⟨bx, List.mem_cons_of_mem _ hmem⟩
    · rw [if_neg h1] at h
      rcases List.mem_cons.mp h with heq | hmem
      · right
        refine ⟨f1, ?_⟩
        rw [(Prod.mk.injEq _ _ _ _).mp heq |>.1]
        exact List.mem_cons_self _ _
      · rcases ih x bx hmem with hx | ⟨b2, hb2⟩
        · exact Or.inl hx
        · exact Or.inr ⟨b2, List.mem_cons_of_mem _ hb2⟩

/-- Writing one (role, account) flag creates no other pair: a pair found
in the updated state either is the written pair or was already present. -/
theorem setPair_mem (st : RoleHolders) (role account : String) (b : Bool) :
    ∀ r m x bx, (r, m) ∈ setPair st role account b → (x, bx) ∈ m →
      (r = role ∧ x = account) ∨ ∃ m2 b2, (r, m2) ∈ st ∧ (x, b2) ∈ m2 := by
  induction st with
  | nil =>
    intro r m x bx hrm hx
    simp [setPair] at hrm
    rw [hrm.2] at hx
    simp at hx
    exact Or.inl ⟨hrm.1, hx.1⟩
  | cons p rest ih =>
    intro r m x bx hrm hx
    obtain ⟨r1, m1⟩ := p
    simp only [setPair] at hrm
    by_cases h1 : r1 = role
    · rw [if_pos h1] at hrm
      rcases List.mem_cons.mp hrm with heq | hmem
      · have hr : r = r1 := (Prod.mk.injEq _ _ _ _).mp heq |>.1
        have hm : m = setFlag m1 account b := (Prod.mk.injEq _ _ _ _).mp heq |>.2
        rw [hm] at hx
        rcases setFlag_mem m1 account b x bx hx with hxa | ⟨b2, hb2⟩
        · exact Or.inl ⟨hr.trans h1, hxa⟩
        · exact Or.inr ⟨m1, b2, by rw [hr]; exact List.mem_cons_self _ _, hb2⟩
      · exact Or.inr ⟨m, bx, List.mem_cons_of_mem _ hmem, hx⟩
    · rw [if_neg h1] at hrm
      rcases List.mem_cons.mp hrm with heq | hmem
      · exact Or.inr ⟨m, bx, by rw [heq]; exact List.mem_cons_self _ _, hx⟩
      · rcases ih r m x bx hmem hx with hrx | ⟨m2, b2, hm2, hb2⟩
        · exact Or.inl hrx
        · exact Or.inr ⟨m2, b2, List.mem_cons_of_mem _ hm2, hb2⟩

/-- A successful role lookup exhibits a member of the state. -/
theorem lookupRole_mem (st : RoleHolders) (r : String)
    (m : List (String × Bool)) : lookupRole st r = some m → (r, m) ∈ st := by
  induction st with
  | nil => intro h; simp [lookupRole] at h
  | cons p rest ih =>
    intro h
    obtain ⟨r1, m1⟩ := p
    simp only [lookupRole] at h
    by_cases h1 : r1 = r
    · rw [if_pos h1] at h
      rw [h1, Option.some.inj h]
      exact List.mem_cons_self _ _
    · rw [if_neg h1] at h
      exact List.mem_cons_of_mem _ (ih h)

/-- A successful flag lookup exhibits a member of the account map. -/
theorem lookupFlag_mem (m : List (String × Bool)) (a : String) (b : Bool) :
    lookupFlag m a = some b → (a, b) ∈ m := by
  induction m with
  | nil => intro h; simp [lookupFlag] at h
  | cons p rest ih =>
    intro h
    obtain ⟨a1, f1⟩ := p
    simp only [lookupFlag] at h
    by_cases h1 : a1 = a
    · rw [if_pos h1] at h
      rw [← h1, Option.some.inj h]
      exact List.mem_cons_self _ _
    · rw [if_neg h1] at h
      exact List.mem_cons_of_mem _ (ih h)

/-- A successful pair lookup exhibits the pair in the state. -/
theorem lookupPair_mem (st : RoleHolders) (r a : String) (b : Bool)
    (h : lookupPair st r a = some b) : ∃ m, (r, m) ∈ st ∧ (a, b) ∈ m := by
  unfold lookupPair at h
  cases hr : lookupRole st r with
  | none => rw [hr] at h; cases h
  | some m =>
    rw [hr] at h
    exact ⟨m, lookupRole_mem st r m hr, lookupFlag_mem m a b h⟩

/-- Every pair present after the grant loop was either present before or
written by a grant event extracting exactly that (role, account). -/
theorem grantFold_mem (l : List EventData) :
    ∀ st r m x bx, (r, m) ∈ List.foldl processGrantEvent st l → (x, bx) ∈ m →
      (∃ m2 b2, (r, m2) ∈ st ∧ (x, b2) ∈ m2) ∨
      ∃ e ∈ l, extractRoleAccount e = some (r, x) := by
  induction l with
  | nil =>
    intro st r m x bx h1 h2
    exact Or.inl ⟨m, bx, h1, h2⟩
  | cons e rest ih =>
    intro st r m x bx h1 h2
    rw [List.foldl_cons] at h1
    rcases ih _ r m x bx h1 h2 with ⟨m2, b2, hm2, hx2⟩ | ⟨e2, he2, hex⟩
    · unfold processGrantEvent at hm2
      cases hext : extractRoleAccount e with
      | none =>
        rw [hext] at hm2
        exact Or.inl ⟨m2, b2, hm2, hx2⟩
      | some p =>
        obtain ⟨prole, pacct⟩ := p
        rw [hext] at hm2
        rcases setPair_mem st prole pacct true r m2 x b2 hm2 hx2 with
          ⟨hr, hx⟩ | ⟨m3, b3, hm3, hx3⟩
        · refine Or.inr ⟨e, List.mem_cons_self _ _, ?_⟩
          rw [hext, hr, hx]
        · exact Or.inl ⟨m3, b3, hm3, hx3⟩
    · exact Or.inr ⟨e2, List.mem_cons_of_mem _ he2, hex⟩

/-- The revoke loop creates no pair: every pair present after it was
already present before. -/
theorem revokeFold_mem (l : List EventData) :
    ∀ st r m x bx, (r, m) ∈ List.foldl processRevokeEvent st l → (x, bx) ∈ m →
      ∃ m2 b2, (r, m2) ∈ st ∧ (x, b2) ∈ m2 := by
  induction l with
  | nil =>
    intro st r m x bx h1 h2
    exact ⟨m, bx, h1, h2⟩
  | cons e rest ih =>
    intro st r m x bx h1 h2
    rw [List.foldl_cons] at h1
    rcases ih _ r m x bx h1 h2 with ⟨m2, b2, hm2, hx2⟩
    unfold processRevokeEvent at hm2
    cases hext : extractRoleAccount e with
    | none =>
      rw [hext] at hm2
      exact ⟨m2, b2, hm2, hx2⟩
    | some p =>
      obtain ⟨prole, pacct⟩ := p
      rw [hext] at hm2
      have hm2i : (r, m2) ∈ (if lookupPair st prole pacct = some true
          then setPair st prole pacct false else st) := hm2
      by_cases hl : lookupPair st prole pacct = some true
      · rw [if_pos hl] at hm2i
        rcases setPair_mem st prole pacct false r m2 x b2 hm2i hx2 with
          ⟨hr, hx⟩ | h3
        · obtain ⟨m3, hm3, hx3⟩ := lookupPair_mem st prole pacct true hl
          exact ⟨m3, true, by rw [hr]; exact hm3, by rw [hx]; exact hx3⟩
        · exact h3
      · rw [if_neg hl] at hm2i
        exact ⟨m2, b2, hm2i, hx2⟩

/-- Claim C10: every account listed as a holder of a role identifier in
the reconstructed state appeared as the account of at least one grant
event carrying that role identifier; revoke events never create a (role,
account) entry. -/
theorem findRoles_holders_trace_to_grants
    (grants revokes : List EventData) (r : String)
    (m : List (String × Bool)) (a : String)
    (hm : (r, m) ∈ reconstructRoles grants revokes) (ha : a ∈ holdersOf m) :
    ∃ e ∈ grants, extractRoleAccount e = some (r, a) := by
  have hmem : (a, true) ∈ m := mem_of_holdersOf m a ha
  unfold reconstructRoles at hm
  rcases revokeFold_mem revokes _ r m a true hm hmem with ⟨m2, b2, hm2, hx2⟩
  rcases grantFold_mem grants [] r m2 a b2 hm2 hx2 with ⟨m3, b3, hm3, _⟩ | hw
  · simp at hm3
  · exact hw

/-- Witness for C10 at a concrete input: the only holder reported after a
single grant of (R, A) traces back to that grant event. -/
theorem findRoles_holders_trace_to_grants_witness :
    ∃ e ∈ [grantBlock1], extractRoleAccount e = some ("R", "A") :=
  findRoles_holders_trace_to_grants [grantBlock1] [] "R" [("A", true)] "A"
    (by decide) (by decide)

/-- Decimal digit extraction never produces an empty list. -/
theorem natDigitsGo_ne_nil (fuel n : Nat) : natDigitsGo fuel n ≠ [] := by
  cases fuel with
  | zero => simp [natDigitsGo]
  | succ f =>
    unfold natDigitsGo
    by_cases h : n < 10
    · rw [if_pos h]; simp
    · rw [if_neg h]; simp

/-- With enough fuel, every extracted digit is a base-10 digit. -/
theorem natDigitsGo_lt (fuel : Nat) :
    ∀ n, n ≤ fuel → ∀ d ∈ natDigitsGo fuel n, d < 10 := by
  induction fuel with
  | zero =>
    intro n hn d hd
    have hn0 : n = 0 := by omega
    subst hn0
    simp [natDigitsGo] at hd
    omega
  | succ f ih =>
    intro n hn d hd
    unfold natDigitsGo at hd
    by_cases h : n < 10
    · rw [if_pos h] at hd
      simp at hd
      omega
    · rw [if_neg h] at hd
      rcases List.mem_append.mp hd with h1 | h2
      · exact ih (n / 10) (by omega) d h1
      · simp at h2
        omega

/-- Every digit of the decimal rendering is a base-10 digit. -/
theorem natDigits_lt (n : Nat) : ∀ d ∈ natDigits n, d < 10 :=
  natDigitsGo_lt n n (Nat.le_refl n)

/-- The ASCII code of a decimal digit character. -/
theorem digitChar_toNat (d : Nat) (hd : d < 10) : (digitChar d).toNat = 48 + d := by
  interval_cases d <;> rfl

/-- A decimal digit character is never the minus sign. -/
theorem digitChar_ne_minus (d : Nat) (hd : d < 10) : digitChar d ≠ '-' := by
  interval_cases d <;> decide

/-- Appending one digit multiplies the value by ten and adds it. -/
theorem decimalVal_concat (xs : List Char) (c : Char) :
    decimalVal (xs ++ [c]) = decimalVal xs * 10 + (c.toNat - 48) := by
  simp [decimalVal, List.foldl_append]

/-- With enough fuel, the rendered digit characters evaluate back to the
number: the rendering is its exact base-10 decimal form. -/
theorem natDigitsGo_val (fuel : Nat) :
    ∀ n, n ≤ fuel → decimalVal ((natDigitsGo fuel n).map digitChar) = n := by
  induction fuel with
  | zero =>
    intro n hn
    have hn0 : n = 0 := by omega
    subst hn0
    decide
  | succ f ih =>
    intro n hn
    unfold natDigitsGo
    by_cases h : n < 10
    · rw [if_pos h]
      simp only [List.map_cons, List.map_nil, decimalVal, List.foldl_cons,
        List.foldl_nil]
      rw [digitChar_toNat n h]
      omega
    · rw [if_neg h]
      rw [List.map_append]
      simp only [List.map_cons, List.map_nil]
      rw [decimalVal_concat]
      rw [ih (n / 10) (by omega)]
      rw [digitChar_toNat (n % 10) (Nat.mod_lt _ (by norm_num))]
      omega

/-- The decimal rendering of a natural number evaluates back to it. -/
theorem natDigits_val (n : Nat) :
    decimalVal ((natDigits n).map digitChar) = n :=
  natDigitsGo_val n n (Nat.le_refl n)

/-- Claim C8 helper: `bigintToString` round-trips: interpreting the
rendered string as an optionally signed base-10 numeral recovers exactly
the original integer. -/
theorem decimalIntVal_bigintToString (i : Int) :
    decimalIntVal (bigintToString i) = i := by
  unfold bigintToString
  by_cases hi : i < 0
  · rw [if_pos hi]
    show decimalIntVal ⟨'-' :: (natDigits i.natAbs).map digitChar⟩ = i
    unfold decimalIntVal
    simp only []
    show -(decimalVal ((natDigits i.natAbs).map digitChar) : Int) = i
    rw [natDigits_val]
    omega
  · rw [if_neg hi]
    cases hD : natDigits i.natAbs with
    | nil => exact absurd hD (natDigitsGo_ne_nil _ _)
    | cons d ds =>
      have hd10 : d < 10 := natDigits_lt i.natAbs d (by rw [hD]; exact List.mem_cons_self _ _)
      have hvv : decimalVal (digitChar d :: ds.map digitChar) = i.natAbs := by
        have hnv := natDigits_val i.natAbs
        rw [hD] at hnv
        simpa using hnv
      show decimalIntVal ⟨(d :: ds).map digitChar⟩ = i
      unfold decimalIntVal
      simp only [List.map_cons]
      rw [if_neg (digitChar_ne_minus d hd10)]
      rw [hvv]
      omega

/-- Association lookup commutes with mapping a function over the values. -/
theorem lookupParam_map (f : JsValue → JsValue)
    (args : List (String × JsValue)) (k : String) :
    lookupParam (args.map (fun kv => (kv.1, f kv.2))) k
      = (lookupParam args k).map f := by
  induction args with
  | nil => rfl
  | cons p rest ih =>
    by_cases h : p.1 = k
    · simp [lookupParam, h]
    · simp [lookupParam, h, ih]

/-- Claim C8: in the event record built by `processLog`, every parameter
whose decoded value is a bigint is mapped, under its name, to the exact
base-10 decimal string of that value (the rendering evaluates back to the
value), and every non-bigint parameter value passes through unchanged. -/
theorem processLog_normalizes_bigints
    (log : RawLog) (tx : TxInfo) (block : BlockInfo) (eventName : String)
    (ev : EventData)
    (h : processLog log (some tx) (some block) eventName = .ok ev) :
    (∀ k i, lookupParam (log.decoded.getD []) k = some (.bigintVal i) →
      lookupParam ev.eventParameters k = some (.strVal (bigintToString i)) ∧
      decimalIntVal (bigintToString i) = i) ∧
    (∀ k v, lookupParam (log.decoded.getD []) k = some v →
      (∀ j, v ≠ .bigintVal j) → lookupParam ev.eventParameters k = some v) := by
  have hev : ev.eventParameters
      = (log.decoded.getD []).map (fun kv => (kv.1, normalizeJsValue kv.2)) := by
    unfold processLog at h
    injection h with h2
    rw [← h2]
  constructor
  · intro k i hk
    refine ⟨?_, decimalIntVal_bigintToString i⟩
    rw [hev, lookupParam_map, hk]
    rfl
  · intro k v hk hnb
    rw [hev, lookupParam_map, hk]
    cases v with
    | strVal s => rfl
    | boolVal b => rfl
    | bigintVal j => exact absurd rfl (hnb j)

/-- Witness for C8 at a concrete input: the bigint parameter 12345 is
rendered as the string 12345, the rendering evaluates back to 12345, and
the string parameter passes through untouched. -/
theorem processLog_normalizes_bigints_witness :
    lookupParam
        (EventData.mk "0xabc" "Transfer" 1700000000000 "0xfrom"
          [("value", .strVal "12345"), ("to", .strVal "0xdead")]).eventParameters
        "value" = some (.strVal (bigintToString 12345)) ∧
    decimalIntVal (bigintToString 12345) = 12345 ∧
    lookupParam
        (EventData.mk "0xabc" "Transfer" 1700000000000 "0xfrom"
          [("value", .strVal "12345"), ("to", .strVal "0xdead")]).eventParameters
        "to" = some (.strVal "0xdead") := by
  have H := processLog_normalizes_bigints
    (RawLog.mk "0xabc" 7 0
      (some [("value", .bigintVal 12345), ("to", .strVal "0xdead")]))
    (TxInfo.mk "0xfrom") (BlockInfo.mk 1700000000) "Transfer"
    (EventData.mk "0xabc" "Transfer" 1700000000000 "0xfrom"
      [("value", .strVal "12345"), ("to", .strVal "0xdead")])
    (by rfl)
  exact ⟨(H.1 "value" 12345 rfl).1, (H.1 "value" 12345 rfl).2,
    H.2 "to" (.strVal "0xdead") rfl (fun j hj => JsValue.noConfusion hj)⟩

end EvmParser
